import Mathlib

set_option linter.unusedVariables false

/-!
Shallow embedding of the Smart Data Pipeline Annotator.

The repository ships the two callers (`dashboard.py`, `demo.py`); the
`pipeline/` package they import (transform, query, load, extract) is not in
the source tree, so those components are modelled from the specification
(each such definition carries a doc comment starting `Modelled from the
spec:`).  Dashboard-level computations (the average-latency display, the
enrichment invocation surface and the metrics channel) are embedded directly
from `src/dashboard.py` and `src/demo.py`.
-/

/-- Modelled from the spec: sentiment enumeration of an `EnrichmentResult`
(`positive`, `negative`, `neutral`, `unknown`; `unknown` signals a parse
failure). -/
inductive Sentiment where
  | positive
  | negative
  | neutral
  | unknown
  deriving DecidableEq

/-- String rendering of a sentiment, as stored in the output table. -/
def Sentiment.toString : Sentiment → String
  | Sentiment.positive => "positive"
  | Sentiment.negative => "negative"
  | Sentiment.neutral => "neutral"
  | Sentiment.unknown => "unknown"

/-- Modelled from the spec: per-record enrichment output
`{sentiment, keywords, summary}`. -/
structure EnrichmentResult where
  sentiment : Sentiment
  keywords : List String
  summary : String
  deriving DecidableEq

/-- Modelled from the spec: the defined "failed" variant of
`EnrichmentResult` — `unknown` sentiment, empty keywords, empty summary. -/
def failedResult : EnrichmentResult :=
  { sentiment := Sentiment.unknown, keywords := [], summary := "" }

/-- Modelled from the spec: deterministic cache key over
(normalized text, model identifier, task version). -/
structure CacheKey where
  text : String
  model : String
  taskVersion : String
  deriving DecidableEq

/-- Modelled from the spec: the key of a text under a model, with the fixed
task version "enrichment-v1". -/
def cacheKey (text mdl : String) : CacheKey :=
  { text := text, model := mdl, taskVersion := "enrichment-v1" }

/-- Modelled from the spec: CacheStore as an association list from keys to
results; the most recent insertion shadows older ones. -/
abbrev CacheStore : Type := List (CacheKey × EnrichmentResult)

/-- Cache lookup; absence is `none`, never an error. -/
def CacheStore.get : CacheStore → CacheKey → Option EnrichmentResult
  | [], _ => none
  | (k2, r) :: rest, k => if k = k2 then some r else CacheStore.get rest k

/-- Cache insertion; a later `put` for the same key replaces wholesale. -/
def CacheStore.put (c : CacheStore) (k : CacheKey) (r : EnrichmentResult) : CacheStore :=
  (k, r) :: c

/-- Modelled from the spec: run metrics accumulated during one enrichment
invocation. -/
structure RunMetrics where
  rows_processed : Nat
  cache_hits : Nat
  api_calls : Nat
  total_latency_s : ℚ
  failures : Nat
  deriving DecidableEq

/-- Fresh metrics at run start. -/
def RunMetrics.init : RunMetrics :=
  { rows_processed := 0, cache_hits := 0, api_calls := 0,
    total_latency_s := 0, failures := 0 }

/-- Modelled from the spec: one LLMGateway attempt either succeeds with raw
text and an observed latency, or fails transiently (rate limit, timeout,
5xx-equivalent). -/
inductive GatewayOutcome where
  | success (text : String) (latency : ℚ)
  | transient
  deriving DecidableEq

/-- Modelled from the spec: bounded retry of an LLMGateway call.  The
environment `gw` gives the outcome of each numbered attempt for a prompt;
`fuel` is the remaining attempt budget.  Returns the raw response and its
latency, or `none` once the budget is exhausted. -/
def callWithRetry (gw : Nat → String → GatewayOutcome) (prompt : String) :
    Nat → Nat → Option (String × ℚ)
  | _, 0 => none
  | attempt, fuel + 1 =>
    match gw attempt prompt with
    | GatewayOutcome.success text latency => some (text, latency)
    | GatewayOutcome.transient => callWithRetry gw prompt (attempt + 1) fuel

/-- Modelled from the spec: the enrichment engine's environment — the gateway
behaviour, the response parser, the retry budget and the prompt builder. -/
structure EnrichConfig where
  gw : Nat → String → GatewayOutcome
  parse : String → Option EnrichmentResult
  maxAttempts : Nat
  buildPrompt : String → String

/-- Modelled from the spec: dispatch of one cache miss — retry-bounded
gateway call, then parse; parse failure or retry exhaustion degrades to the
failed result.  Returns (result, failed-flag, latency). -/
def dispatchMiss (cfg : EnrichConfig) (text : String) : EnrichmentResult × Bool × ℚ :=
  match callWithRetry cfg.gw (cfg.buildPrompt text) 0 cfg.maxAttempts with
  | none => (failedResult, true, 0)
  | some (raw, latency) =>
    match cfg.parse raw with
    | some r => (r, false, latency)
    | none => (failedResult, true, latency)

/-- A table row: ordered (column name, value) pairs. -/
abbrev Row : Type := List (String × String)

/-- A table: ordered rows. -/
abbrev Table : Type := List Row

/-- First value bound to a column name in a row. -/
def getCol : Row → String → Option String
  | [], _ => none
  | (n, v) :: rest, name => if name = n then some v else getCol rest name

/-- Text of a row's designated text field (empty when absent). -/
def getField (row : Row) (tf : String) : String :=
  (getCol row tf).getD ""

/-- Cache key of a row under a text field and model. -/
def rowKey (tf mdl : String) (row : Row) : CacheKey :=
  cacheKey (getField row tf) mdl

/-- JSON encoding of a keyword list as an array of strings. -/
def encodeJsonArray (ks : List String) : String :=
  "[" ++ String.intercalate ", " (ks.map (fun k => "\"" ++ k ++ "\"")) ++ "]"

/-- The three enrichment columns appended to a row. -/
def resultColumns (r : EnrichmentResult) : Row :=
  [("sentiment", Sentiment.toString r.sentiment),
   ("keywords", encodeJsonArray r.keywords),
   ("summary", r.summary)]

/-- Mutable state threaded through an enrichment run: the cache and the
metrics. -/
structure EnrichState where
  cache : CacheStore
  metrics : RunMetrics

/-- Modelled from the spec: processing of one record — serve a cache hit, or
dispatch the miss, store the freshly computed result, and meter the call. -/
def enrichRow (cfg : EnrichConfig) (mdl tf : String) (st : EnrichState) (row : Row) :
    EnrichState × Row :=
  match CacheStore.get st.cache (rowKey tf mdl row) with
  | some r =>
    ({ cache := st.cache,
       metrics := { st.metrics with
         rows_processed := st.metrics.rows_processed + 1,
         cache_hits := st.metrics.cache_hits + 1 } },
     row ++ resultColumns r)
  | none =>
    let d := dispatchMiss cfg (getField row tf)
    ({ cache := CacheStore.put st.cache (rowKey tf mdl row) d.1,
       metrics := { st.metrics with
         rows_processed := st.metrics.rows_processed + 1,
         api_calls := st.metrics.api_calls + 1,
         total_latency_s := st.metrics.total_latency_s + d.2.2,
         failures := st.metrics.failures + (if d.2.1 then 1 else 0) } },
     row ++ resultColumns d.1)

/-- Modelled from the spec: enrichment of a record sequence, threading the
cache (so a freshly computed result is visible to later rows, coalescing
duplicates) and the metrics. -/
def enrichRows (cfg : EnrichConfig) (mdl tf : String) :
    EnrichState → List Row → EnrichState × List Row
  | st, [] => (st, [])
  | st, row :: rest =>
    let p := enrichRow cfg mdl tf st row
    let q := enrichRows cfg mdl tf p.1 rest
    (q.1, p.2 :: q.2)

/-- Fuel-bounded partition into batches of `b`; with fuel at least the list
length and `b` positive this is the batching of the spec (last batch may be
smaller). -/
def chunksAux (b : Nat) : Nat → List Row → List (List Row)
  | _, [] => []
  | 0, l => [l]
  | fuel + 1, l => l.take b :: chunksAux b fuel (l.drop b)

/-- Modelled from the spec: partition records into batches of `b`. -/
def chunks (b : Nat) (l : List Row) : List (List Row) :=
  chunksAux b l.length l

/-- Modelled from the spec: batch-wise enrichment — batches are processed in
order, results concatenated. -/
def enrichBatched (cfg : EnrichConfig) (mdl tf : String) (b : Nat)
    (st : EnrichState) (records : List Row) : EnrichState × List Row :=
  (chunks b records).foldl
    (fun acc batch =>
      let q := enrichRows cfg mdl tf acc.1 batch
      (q.1, acc.2 ++ q.2))
    (st, [])

/-- Modelled from the spec: the BatchEnricher entry point
`enrich(records, text_field, model, batch_size)`.  It starts from a given
persistent cache and returns the enriched rows, the run's metrics and the
updated cache. -/
def enrich (cfg : EnrichConfig) (cache : CacheStore) (records : List Row)
    (tf mdl : String) (b : Nat) : List Row × RunMetrics × CacheStore :=
  let p := enrichBatched cfg mdl tf b { cache := cache, metrics := RunMetrics.init } records
  (p.2, p.1.metrics, p.1.cache)

/-! ### Supporting lemmas about the enrichment engine -/

theorem chunksAux_join (b : Nat) : ∀ (fuel : Nat) (l : List Row), (chunksAux b fuel l).flatten = l := by
  intro fuel
  induction fuel with
  | zero =>
    intro l
    cases l <;> simp [chunksAux]
  | succ n ih =>
    intro l
    cases l with
    | nil => simp [chunksAux]
    | cons x xs =>
      simp only [chunksAux, List.flatten_cons, ih]
      exact List.take_append_drop b (x :: xs)

theorem chunks_join (b : Nat) (l : List Row) : (chunks b l).flatten = l :=
  chunksAux_join b l.length l

theorem enrichRows_append (cfg : EnrichConfig) (mdl tf : String) :
    ∀ (l1 l2 : List Row) (st : EnrichState),
    enrichRows cfg mdl tf st (l1 ++ l2) =
      ((enrichRows cfg mdl tf (enrichRows cfg mdl tf st l1).1 l2).1,
       (enrichRows cfg mdl tf st l1).2 ++ (enrichRows cfg mdl tf (enrichRows cfg mdl tf st l1).1 l2).2) := by
  intro l1
  induction l1 with
  | nil =>
    intro l2 st
    simp [enrichRows]
  | cons row rest ih =>
    intro l2 st
    simp [enrichRows, ih]

theorem foldl_enrich (cfg : EnrichConfig) (mdl tf : String) :
    ∀ (L : List (List Row)) (st : EnrichState) (out : List Row),
    L.foldl
      (fun acc batch =>
        let q := enrichRows cfg mdl tf acc.1 batch
        (q.1, acc.2 ++ q.2))
      (st, out)
    = ((enrichRows cfg mdl tf st L.flatten).1, out ++ (enrichRows cfg mdl tf st L.flatten).2) := by
  intro L
  induction L with
  | nil =>
    intro st out
    simp [enrichRows]
  | cons batch L ih =>
    intro st out
    simp only [List.foldl_cons, List.flatten_cons, enrichRows_append, ih]
    simp [List.append_assoc]

theorem enrichBatched_eq (cfg : EnrichConfig) (mdl tf : String) (b : Nat)
    (st : EnrichState) (records : List Row) :
    enrichBatched cfg mdl tf b st records = enrichRows cfg mdl tf st records := by
  unfold enrichBatched
  rw [foldl_enrich, chunks_join]
  simp

theorem enrichRow_metrics (cfg : EnrichConfig) (mdl tf : String) (st : EnrichState) (row : Row) :
    ∃ hi ap fl : Nat,
      hi + ap = 1 ∧ fl ≤ ap ∧
      ((enrichRow cfg mdl tf st row).1).metrics.rows_processed = st.metrics.rows_processed + 1 ∧
      ((enrichRow cfg mdl tf st row).1).metrics.cache_hits = st.metrics.cache_hits + hi ∧
      ((enrichRow cfg mdl tf st row).1).metrics.api_calls = st.metrics.api_calls + ap ∧
      ((enrichRow cfg mdl tf st row).1).metrics.failures = st.metrics.failures + fl := by
  cases hget : CacheStore.get st.cache (rowKey tf mdl row) with
  | some r =>
    refine ⟨1, 0, 0, by omega, by omega, ?_, ?_, ?_, ?_⟩ <;> simp [enrichRow, hget]
  | none =>
    cases hfail : (dispatchMiss cfg (getField row tf)).2.1 with
    | false =>
      refine ⟨0, 1, 0, by omega, by omega, ?_, ?_, ?_, ?_⟩ <;> simp [enrichRow, hget, hfail]
    | true =>
      refine ⟨0, 1, 1, by omega, by omega, ?_, ?_, ?_, ?_⟩ <;> simp [enrichRow, hget, hfail]

theorem enrichRows_metrics (cfg : EnrichConfig) (mdl tf : String) :
    ∀ (rs : List Row) (st : EnrichState),
      (((enrichRows cfg mdl tf st rs).1).metrics.rows_processed = st.metrics.rows_processed + rs.length)
      ∧ (((enrichRows cfg mdl tf st rs).1).metrics.cache_hits
           + ((enrichRows cfg mdl tf st rs).1).metrics.api_calls
           = st.metrics.cache_hits + st.metrics.api_calls + rs.length)
      ∧ (((enrichRows cfg mdl tf st rs).1).metrics.failures + st.metrics.api_calls
           ≤ st.metrics.failures + ((enrichRows cfg mdl tf st rs).1).metrics.api_calls) := by
  intro rs
  induction rs with
  | nil =>
    intro st
    simp [enrichRows]
  | cons row rest ih =>
    intro st
    obtain ⟨hi, ap, fl, h1, h2, h3, h4, h5, h6⟩ := enrichRow_metrics cfg mdl tf st row
    obtain ⟨ha, hb, hc⟩ := ih (enrichRow cfg mdl tf st row).1
    simp only [enrichRows, List.length_cons]
    refine ⟨?_, ?_, ?_⟩ <;> omega

theorem get_put_same (c : CacheStore) (k : CacheKey) (r : EnrichmentResult) :
    CacheStore.get (CacheStore.put c k r) k = some r := by
  simp [CacheStore.put, CacheStore.get]

theorem get_put_ne (c : CacheStore) (k k2 : CacheKey) (r : EnrichmentResult) (h : k2 ≠ k) :
    CacheStore.get (CacheStore.put c k r) k2 = CacheStore.get c k2 := by
  simp [CacheStore.put, CacheStore.get, h]

theorem enrichRow_snd (cfg : EnrichConfig) (mdl tf : String) (st : EnrichState) (row : Row) :
    ∃ r : EnrichmentResult, (enrichRow cfg mdl tf st row).2 = row ++ resultColumns r := by
  cases hget : CacheStore.get st.cache (rowKey tf mdl row) with
  | some r => exact ⟨r, by simp [enrichRow, hget]⟩
  | none => exact ⟨(dispatchMiss cfg (getField row tf)).1, by simp [enrichRow, hget]⟩

theorem enrichRows_length (cfg : EnrichConfig) (mdl tf : String) :
    ∀ (rs : List Row) (st : EnrichState),
    ((enrichRows cfg mdl tf st rs).2).length = rs.length := by
  intro rs
  induction rs with
  | nil => intro st; simp [enrichRows]
  | cons row rest ih => intro st; simp [enrichRows, ih]

theorem enrichRows_getElem? (cfg : EnrichConfig) (mdl tf : String) :
    ∀ (rs : List Row) (st : EnrichState) (i : Nat) (row : Row),
    rs[i]? = some row →
    ∃ r : EnrichmentResult,
      ((enrichRows cfg mdl tf st rs).2)[i]? = some (row ++ resultColumns r) := by
  intro rs
  induction rs with
  | nil => intro st i row h; simp at h
  | cons row0 rest ih =>
    intro st i row h
    cases i with
    | zero =>
      simp at h
      subst h
      obtain ⟨r, hr⟩ := enrichRow_snd cfg mdl tf st row0
      exact ⟨r, by simp [enrichRows, hr]⟩
    | succ n =>
      simp at h
      obtain ⟨r, hr⟩ := ih (enrichRow cfg mdl tf st row0).1 n row h
      exact ⟨r, by simp [enrichRows, hr]⟩

theorem list_eq_of_getElem? : ∀ (l1 l2 : List Row), (∀ i : Nat, l1[i]? = l2[i]?) → l1 = l2 := by
  intro l1
  induction l1 with
  | nil =>
    intro l2 h
    cases l2 with
    | nil => rfl
    | cons y ys => have h0 := h 0; simp at h0
  | cons x xs ih =>
    intro l2 h
    cases l2 with
    | nil => have h0 := h 0; simp at h0
    | cons y ys =>
      have h0 := h 0
      simp at h0
      have hrest := ih ys (fun i => by have hi := h (i + 1); simpa using hi)
      simp [h0, hrest]

theorem enrichRows_cache_mono (cfg : EnrichConfig) (mdl tf : String) :
    ∀ (rs : List Row) (st : EnrichState) (k : CacheKey) (v : EnrichmentResult),
    CacheStore.get st.cache k = some v →
    CacheStore.get ((enrichRows cfg mdl tf st rs).1).cache k = some v := by
  intro rs
  induction rs with
  | nil =>
    intro st k v h
    simpa [enrichRows] using h
  | cons row rest ih =>
    intro st k v h
    simp only [enrichRows]
    apply ih
    cases hget : CacheStore.get st.cache (rowKey tf mdl row) with
    | some r => simpa [enrichRow, hget] using h
    | none =>
      have hne : k ≠ rowKey tf mdl row := by
        intro he
        rw [he] at h
        rw [h] at hget
        cases hget
      simp only [enrichRow, hget]
      rw [get_put_ne _ _ _ _ hne]
      exact h

theorem enrichRows_cache_out (cfg : EnrichConfig) (mdl tf : String) :
    ∀ (rs : List Row) (st : EnrichState) (i : Nat) (row : Row),
    rs[i]? = some row →
    ∃ r : EnrichmentResult,
      CacheStore.get ((enrichRows cfg mdl tf st rs).1).cache (rowKey tf mdl row) = some r
      ∧ ((enrichRows cfg mdl tf st rs).2)[i]? = some (row ++ resultColumns r) := by
  intro rs
  induction rs with
  | nil => intro st i row h; simp at h
  | cons row0 rest ih =>
    intro st i row h
    cases i with
    | zero =>
      simp at h
      subst h
      cases hget : CacheStore.get st.cache (rowKey tf mdl row0) with
      | some r =>
        refine ⟨r, ?_, ?_⟩
        · have hst1 : CacheStore.get ((enrichRow cfg mdl tf st row0).1).cache (rowKey tf mdl row0) = some r := by
            simp [enrichRow, hget]
          simp only [enrichRows]
          exact enrichRows_cache_mono cfg mdl tf rest _ _ _ hst1
        · simp [enrichRows, enrichRow, hget]
      | none =>
        refine ⟨(dispatchMiss cfg (getField row0 tf)).1, ?_, ?_⟩
        · have hst1 : CacheStore.get ((enrichRow cfg mdl tf st row0).1).cache (rowKey tf mdl row0)
              = some (dispatchMiss cfg (getField row0 tf)).1 := by
            simp [enrichRow, hget, get_put_same]
          simp only [enrichRows]
          exact enrichRows_cache_mono cfg mdl tf rest _ _ _ hst1
        · simp [enrichRows, enrichRow, hget]
    | succ n =>
      simp at h
      obtain ⟨r, h1, h2⟩ := ih (enrichRow cfg mdl tf st row0).1 n row h
      refine ⟨r, ?_, ?_⟩
      · simp only [enrichRows]
        exact h1
      · simp [enrichRows, h2]

theorem enrichRows_all_hits (cfg : EnrichConfig) (mdl tf : String) :
    ∀ (rs : List Row) (st : EnrichState),
    (∀ row ∈ rs, (CacheStore.get st.cache (rowKey tf mdl row)).isSome) →
    ((enrichRows cfg mdl tf st rs).1).cache = st.cache
    ∧ ((enrichRows cfg mdl tf st rs).1).metrics.api_calls = st.metrics.api_calls
    ∧ ((enrichRows cfg mdl tf st rs).1).metrics.cache_hits = st.metrics.cache_hits + rs.length
    ∧ ((enrichRows cfg mdl tf st rs).1).metrics.rows_processed = st.metrics.rows_processed + rs.length
    ∧ ∀ (i : Nat) (row : Row), rs[i]? = some row →
        ((enrichRows cfg mdl tf st rs).2)[i]?
          = some (row ++ resultColumns ((CacheStore.get st.cache (rowKey tf mdl row)).getD failedResult)) := by
  intro rs
  induction rs with
  | nil =>
    intro st h
    refine ⟨by simp [enrichRows], by simp [enrichRows], by simp [enrichRows],
            by simp [enrichRows], ?_⟩
    intro i row hrow
    simp at hrow
  | cons row0 rest ih =>
    intro st h
    have h0 := h row0 (by simp)
    cases hget : CacheStore.get st.cache (rowKey tf mdl row0) with
    | none =>
      rw [hget] at h0
      simp at h0
    | some r0 =>
      have hcache1 : ((enrichRow cfg mdl tf st row0).1).cache = st.cache := by
        simp [enrichRow, hget]
      have hrows1 : ((enrichRow cfg mdl tf st row0).1).metrics.rows_processed
          = st.metrics.rows_processed + 1 := by
        simp [enrichRow, hget]
      have hhits1 : ((enrichRow cfg mdl tf st row0).1).metrics.cache_hits
          = st.metrics.cache_hits + 1 := by
        simp [enrichRow, hget]
      have hapi1 : ((enrichRow cfg mdl tf st row0).1).metrics.api_calls
          = st.metrics.api_calls := by
        simp [enrichRow, hget]
      have hrest : ∀ row ∈ rest, (CacheStore.get ((enrichRow cfg mdl tf st row0).1).cache (rowKey tf mdl row)).isSome := by
        intro row hrow
        rw [hcache1]
        exact h row (by simp [hrow])
      obtain ⟨hc, ha, hh, hr, hout⟩ := ih (enrichRow cfg mdl tf st row0).1 hrest
      refine ⟨?_, ?_, ?_, ?_, ?_⟩
      · simp only [enrichRows]
        rw [hc, hcache1]
      · simp only [enrichRows]
        rw [ha, hapi1]
      · simp only [enrichRows, List.length_cons]
        rw [hh, hhits1]
        omega
      · simp only [enrichRows, List.length_cons]
        rw [hr, hrows1]
        omega
      · intro i row hrow
        cases i with
        | zero =>
          simp at hrow
          subst hrow
          simp [enrichRows, enrichRow, hget]
        | succ n =>
          simp at hrow
          have hn := hout n row hrow
          rw [hcache1] at hn
          simp only [enrichRows]
          simpa using hn

/-! ### Concrete fixtures used by witnesses -/

/-- A canned enrichment result produced by the stub parser. -/
def stubResult : EnrichmentResult :=
  { sentiment := Sentiment.positive, keywords := ["quality"], summary := "ok" }

/-- A stub environment whose gateway always succeeds and whose parser always
parses. -/
def cfgStub : EnrichConfig :=
  { gw := fun _ _ => GatewayOutcome.success "RESP" 1,
    parse := fun _ => some stubResult,
    maxAttempts := 3,
    buildPrompt := fun t => t }

/-- A stub environment whose gateway always fails transiently and whose parser
never parses. -/
def cfgFail : EnrichConfig :=
  { gw := fun _ _ => GatewayOutcome.transient,
    parse := fun _ => none,
    maxAttempts := 2,
    buildPrompt := fun t => t }

/-- Two sample records with a `text` column. -/
def demoRecords : List Row :=
  [[("text", "great product")], [("text", "terrible service")]]

/-! ### Claim theorems -/

/-- C1: after every enrichment run over any ordered record sequence, the
returned metrics satisfy `rows_processed = len(records)`,
`cache_hits + api_calls = rows_processed` and `failures ≤ api_calls`. -/
theorem enrich_metrics_invariant (cfg : EnrichConfig) (cache : CacheStore)
    (records : List Row) (tf mdl : String) (b : Nat) :
    (enrich cfg cache records tf mdl b).2.1.rows_processed = records.length
    ∧ (enrich cfg cache records tf mdl b).2.1.cache_hits
        + (enrich cfg cache records tf mdl b).2.1.api_calls
        = (enrich cfg cache records tf mdl b).2.1.rows_processed
    ∧ (enrich cfg cache records tf mdl b).2.1.failures
        ≤ (enrich cfg cache records tf mdl b).2.1.api_calls := by
  obtain ⟨h1, h2, h3⟩ :=
    enrichRows_metrics cfg mdl tf records { cache := cache, metrics := RunMetrics.init }
  simp only [enrich, enrichBatched_eq, RunMetrics.init]
  simp only [RunMetrics.init] at h1 h2 h3
  refine ⟨?_, ?_, ?_⟩ <;> omega

/-- C3: the enrichment output keeps the input record order — row `i` of the
output extends row `i` of the input — and the whole run is independent of the
batch size. -/
theorem enrich_order_preserved (cfg : EnrichConfig) (cache : CacheStore)
    (records : List Row) (tf mdl : String) (b b2 : Nat) :
    ((enrich cfg cache records tf mdl b).1).length = records.length
    ∧ (∀ (i : Nat) (row : Row), records[i]? = some row →
        ∃ r : EnrichmentResult,
          ((enrich cfg cache records tf mdl b).1)[i]? = some (row ++ resultColumns r))
    ∧ enrich cfg cache records tf mdl b = enrich cfg cache records tf mdl b2 := by
  refine ⟨?_, ?_, ?_⟩
  · simp only [enrich, enrichBatched_eq]
    exact enrichRows_length cfg mdl tf records _
  · intro i row h
    simp only [enrich, enrichBatched_eq]
    exact enrichRows_getElem? cfg mdl tf records _ i row h
  · simp only [enrich, enrichBatched_eq]

/-- Witness for C3 at a concrete input: the first output row extends the first
input record. -/
theorem enrich_order_preserved_witness :
    ∃ r : EnrichmentResult,
      ((enrich cfgStub [] demoRecords "text" "m" 2).1)[0]?
        = some ([("text", "great product")] ++ resultColumns r) :=
  (enrich_order_preserved cfgStub [] demoRecords "text" "m" 2 3).2.1 0
    [("text", "great product")] rfl

/-- C6: a record whose gateway call exhausts its bounded retries or whose
response fails to parse is recorded with `unknown` sentiment, empty keywords
and empty summary, the `failures` counter is incremented, and the run
continues — one output row is still produced for every input row. -/
theorem enrichRow_failure (cfg : EnrichConfig) (mdl tf : String) (st : EnrichState) (row : Row)
    (hmiss : CacheStore.get st.cache (rowKey tf mdl row) = none)
    (hfail : callWithRetry cfg.gw (cfg.buildPrompt (getField row tf)) 0 cfg.maxAttempts = none
      ∨ ∃ raw lat,
          callWithRetry cfg.gw (cfg.buildPrompt (getField row tf)) 0 cfg.maxAttempts = some (raw, lat)
          ∧ cfg.parse raw = none) :
    (enrichRow cfg mdl tf st row).2 = row ++ resultColumns failedResult
    ∧ (enrichRow cfg mdl tf st row).1.metrics.failures = st.metrics.failures + 1
    ∧ ∀ rest : List Row, ((enrichRows cfg mdl tf st (row :: rest)).2).length = rest.length + 1 := by
  have hd : (dispatchMiss cfg (getField row tf)).1 = failedResult
      ∧ (dispatchMiss cfg (getField row tf)).2.1 = true := by
    rcases hfail with hnone | ⟨raw, lat, hsome, hparse⟩
    · simp [dispatchMiss, hnone]
    · simp [dispatchMiss, hsome, hparse]
  refine ⟨?_, ?_, ?_⟩
  · simp [enrichRow, hmiss, hd.1]
  · simp [enrichRow, hmiss, hd.2]
  · intro rest
    simp [enrichRows, enrichRows_length]

/-- Witness for C6 at a concrete input: with a gateway that always fails
transiently, the row degrades to the failed result and `failures` becomes 1. -/
theorem enrichRow_failure_witness :
    (enrichRow cfgFail "m" "text" { cache := [], metrics := RunMetrics.init } [("text", "x")]).2
      = [("text", "x")] ++ resultColumns failedResult
    ∧ (enrichRow cfgFail "m" "text" { cache := [], metrics := RunMetrics.init } [("text", "x")]).1.metrics.failures
      = RunMetrics.init.failures + 1 :=
  ⟨(enrichRow_failure cfgFail "m" "text" { cache := [], metrics := RunMetrics.init }
      [("text", "x")] rfl (Or.inl rfl)).1,
   (enrichRow_failure cfgFail "m" "text" { cache := [], metrics := RunMetrics.init }
      [("text", "x")] rfl (Or.inl rfl)).2.1⟩

/-- C8: every output row is its input row with all original columns unchanged
followed by exactly the three added columns `sentiment` (string),
`keywords` (JSON-encoded array of strings) and `summary` (string). -/
theorem enrich_output_columns (cfg : EnrichConfig) (cache : CacheStore)
    (records : List Row) (tf mdl : String) (b : Nat) (i : Nat) (row : Row)
    (h : records[i]? = some row) :
    ∃ r : EnrichmentResult,
      ((enrich cfg cache records tf mdl b).1)[i]?
        = some (row ++ [("sentiment", Sentiment.toString r.sentiment),
                        ("keywords", encodeJsonArray r.keywords),
                        ("summary", r.summary)]) := by
  obtain ⟨r, hr⟩ := enrichRows_getElem? cfg mdl tf records
    { cache := cache, metrics := RunMetrics.init } i row h
  refine ⟨r, ?_⟩
  simp only [enrich, enrichBatched_eq]
  simpa [resultColumns] using hr

/-- Witness for C8 at a concrete input: the second output row carries the
three enrichment columns after the original column. -/
theorem enrich_output_columns_witness :
    ∃ r : EnrichmentResult,
      ((enrich cfgStub [] demoRecords "text" "m" 1).1)[1]?
        = some ([("text", "terrible service")]
            ++ [("sentiment", Sentiment.toString r.sentiment),
                ("keywords", encodeJsonArray r.keywords),
                ("summary", r.summary)]) :=
  enrich_output_columns cfgStub [] demoRecords "text" "m" 1 1
    [("text", "terrible service")] rfl

/-- C5: running enrichment a second time on the same records with the same
model, starting from the cache the first run produced, makes no API call,
serves every row from cache, and returns exactly the first run's output. -/
theorem enrich_rerun_cached (cfg : EnrichConfig) (cache0 : CacheStore)
    (records : List Row) (tf mdl : String) (b : Nat) :
    (enrich cfg (enrich cfg cache0 records tf mdl b).2.2 records tf mdl b).2.1.api_calls = 0
    ∧ (enrich cfg (enrich cfg cache0 records tf mdl b).2.2 records tf mdl b).2.1.cache_hits
        = (enrich cfg (enrich cfg cache0 records tf mdl b).2.2 records tf mdl b).2.1.rows_processed
    ∧ (enrich cfg (enrich cfg cache0 records tf mdl b).2.2 records tf mdl b).1
        = (enrich cfg cache0 records tf mdl b).1 := by
  simp only [enrich, enrichBatched_eq]
  have hcomplete : ∀ row ∈ records,
      (CacheStore.get
        ((enrichRows cfg mdl tf { cache := cache0, metrics := RunMetrics.init } records).1).cache
        (rowKey tf mdl row)).isSome := by
    intro row hrow
    obtain ⟨i, hi⟩ := List.getElem?_of_mem hrow
    obtain ⟨r, hr, _⟩ := enrichRows_cache_out cfg mdl tf records
      { cache := cache0, metrics := RunMetrics.init } i row hi
    simp [hr]
  obtain ⟨hc, ha, hh, hrw, hout⟩ := enrichRows_all_hits cfg mdl tf records
    { cache := (enrichRows cfg mdl tf { cache := cache0, metrics := RunMetrics.init } records).1.cache,
      metrics := RunMetrics.init } hcomplete
  refine ⟨?_, ?_, ?_⟩
  · rw [ha]
    simp [RunMetrics.init]
  · rw [hh, hrw]
    simp [RunMetrics.init]
  · apply list_eq_of_getElem?
    intro i
    cases hrec : records[i]? with
    | some row =>
      have h2 := hout i row hrec
      obtain ⟨r, hr1, hr2⟩ := enrichRows_cache_out cfg mdl tf records
        { cache := cache0, metrics := RunMetrics.init } i row hrec
      rw [h2, hr2]
      simp [hr1]
    | none =>
      have hlen := List.getElem?_eq_none_iff.mp hrec
      have e1 := List.getElem?_eq_none (l :=
        (enrichRows cfg mdl tf
          { cache := (enrichRows cfg mdl tf { cache := cache0, metrics := RunMetrics.init } records).1.cache,
            metrics := RunMetrics.init } records).2)
        (n := i) (by rw [enrichRows_length]; exact hlen)
      have e2 := List.getElem?_eq_none (l :=
        (enrichRows cfg mdl tf { cache := cache0, metrics := RunMetrics.init } records).2)
        (n := i) (by rw [enrichRows_length]; exact hlen)
      rw [e1, e2]

/-! ### Query layer: translator and guard (modelled from the spec).
String handling is implemented over character lists so that every function
evaluates by kernel reduction. -/

/-- Separator characters for SQL tokenization. -/
def isSepChar (c : Char) : Bool :=
  c == ' ' || c == '\n' || c == '\t' || c == '\r' || c == ',' || c == '(' || c == ')' || c == ';'

/-- Whitespace characters. -/
def isSpaceChar (c : Char) : Bool :=
  c == ' ' || c == '\n' || c == '\t' || c == '\r'

/-- Upper-casing of an ASCII letter. -/
def upChar (c : Char) : Char :=
  if c == 'a' then 'A' else if c == 'b' then 'B' else if c == 'c' then 'C'
  else if c == 'd' then 'D' else if c == 'e' then 'E' else if c == 'f' then 'F'
  else if c == 'g' then 'G' else if c == 'h' then 'H' else if c == 'i' then 'I'
  else if c == 'j' then 'J' else if c == 'k' then 'K' else if c == 'l' then 'L'
  else if c == 'm' then 'M' else if c == 'n' then 'N' else if c == 'o' then 'O'
  else if c == 'p' then 'P' else if c == 'q' then 'Q' else if c == 'r' then 'R'
  else if c == 's' then 'S' else if c == 't' then 'T' else if c == 'u' then 'U'
  else if c == 'v' then 'V' else if c == 'w' then 'W' else if c == 'x' then 'X'
  else if c == 'y' then 'Y' else if c == 'z' then 'Z' else c

/-- Upper-cased copy of a string. -/
def upStr (s : String) : String :=
  String.mk (s.data.map upChar)

/-- Splitting of a character list at the characters satisfying `p`; the
accumulator holds the current segment reversed. -/
def splitChars (p : Char → Bool) : List Char → List Char → List String
  | [], acc => [String.mk acc.reverse]
  | c :: cs, acc =>
    if p c then String.mk acc.reverse :: splitChars p cs []
    else splitChars p cs (c :: acc)

/-- Both-ends whitespace trimming. -/
def trimStr (s : String) : String :=
  String.mk (((s.data.dropWhile isSpaceChar).reverse.dropWhile isSpaceChar).reverse)

/-- Concatenation of strings with a separator. -/
def joinWith (sep : String) : List String → String
  | [] => ""
  | [s] => s
  | s :: rest => s ++ sep ++ joinWith sep rest

/-- Whitespace/punctuation tokens of a SQL string, empty tokens dropped. -/
def rawTokens (s : String) : List String :=
  (splitChars isSepChar s.data []).filter (fun w => !w.isEmpty)

/-- Non-empty statements of a (possibly multi-statement) SQL string, split on
semicolons. -/
def sqlStatements (sql : String) : List String :=
  ((splitChars (fun c => c == ';') sql.data []).map trimStr).filter (fun s => !s.isEmpty)

/-- Upper-cased top-level keyword of a SQL string. -/
def firstKeyword (sql : String) : String :=
  upStr ((rawTokens sql).headD "")

/-- Whether the statement's top-level keyword is SELECT. -/
def isSelectStmt (sql : String) : Bool :=
  firstKeyword sql == "SELECT"

/-- Whether the input holds more than one statement. -/
def isMultiStatement (sql : String) : Bool :=
  decide (1 < (sqlStatements sql).length)

/-- Identifiers immediately following FROM or JOIN. -/
def tablesOf : List String → List String
  | [] => []
  | w :: rest =>
    if upStr w == "FROM" || upStr w == "JOIN" then
      match rest with
      | [] => []
      | tname :: rest2 => tname :: tablesOf rest2
    else tablesOf rest

/-- SQL keywords and aggregate names: tokens that are never column
references. -/
def sqlKeywords : List String :=
  ["SELECT", "DISTINCT", "FROM", "JOIN", "INNER", "LEFT", "RIGHT", "OUTER", "FULL",
   "CROSS", "ON", "WHERE", "GROUP", "BY", "ORDER", "HAVING", "LIMIT", "OFFSET", "AS",
   "AND", "OR", "NOT", "IN", "IS", "NULL", "LIKE", "BETWEEN", "ASC", "DESC", "UNION",
   "ALL", "EXISTS", "CASE", "WHEN", "THEN", "ELSE", "END", "COUNT", "SUM", "AVG",
   "MIN", "MAX"]

/-- Whether a token is an identifier (begins with a letter or underscore) —
as opposed to a numeric literal, `*`, or an operator. -/
def isIdentToken (w : String) : Bool :=
  match w.data with
  | [] => false
  | c :: _ => c.isAlpha || c == '_'

/-- Column references of a whole token stream: every identifier token that is
not a SQL keyword, anywhere in the statement (select list, WHERE, GROUP BY,
ORDER BY, ON, ...); the identifier right after FROM or JOIN is a table
reference and is skipped. -/
def columnTokens : List String → List String
  | [] => []
  | w :: rest =>
    if upStr w == "FROM" || upStr w == "JOIN" then
      match rest with
      | [] => []
      | _ :: rest2 => columnTokens rest2
    else if isIdentToken w && !(sqlKeywords.contains (upStr w)) then
      w :: columnTokens rest
    else columnTokens rest

/-- A table of the known schema: its name and its column names. -/
structure TableSchema where
  name : String
  columns : List String

/-- The known schema: the tables the guard may reference. -/
abbrev Schema := List TableSchema

/-- Whether a table name exists in the schema. -/
def schemaHasTable (sch : Schema) (t : String) : Bool :=
  sch.any (fun ts => ts.name == t)

/-- Whether a column name exists in some table of the schema. -/
def schemaHasColumn (sch : Schema) (c : String) : Bool :=
  sch.any (fun ts => ts.columns.contains c)

/-- Tables referenced by a SQL string (after FROM/JOIN). -/
def referencedTables (sql : String) : List String :=
  tablesOf (rawTokens sql)

/-- Columns referenced anywhere in a SQL string. -/
def referencedColumns (sql : String) : List String :=
  columnTokens (rawTokens sql)

/-- Whether every referenced table and column exists in the known schema. -/
def schemaOk (sch : Schema) (sql : String) : Bool :=
  (referencedTables sql).all (fun t => schemaHasTable sch t)
  && (referencedColumns sql).all (fun c => schemaHasColumn sch c)

/-- Whether the statement already carries a LIMIT clause. -/
def hasLimitClause (sql : String) : Bool :=
  (rawTokens sql).any (fun w => upStr w == "LIMIT")

/-- Fuel-bounded decimal digits of a natural number, most significant
first. -/
def natToStrAux : Nat → Nat → List Char
  | 0, _ => []
  | f + 1, n =>
    if n < 10 then [Char.ofNat (48 + n)]
    else natToStrAux f (n / 10) ++ [Char.ofNat (48 + n % 10)]

/-- Decimal rendering of a natural number. -/
def natToStr (n : Nat) : String :=
  String.mk (natToStrAux (n + 1) n)

/-- Wrapping of a statement with the maximum row-count cap. -/
def wrapWithLimit (sql : String) (maxRows : Nat) : String :=
  sql ++ " LIMIT " ++ natToStr maxRows

/-- Decidable equality of `Except` values. -/
instance instDecEqExcept {ε α : Type} [DecidableEq ε] [DecidableEq α] :
    DecidableEq (Except ε α) := fun x y =>
  match x, y with
  | Except.error a, Except.error b =>
    if h : a = b then Decidable.isTrue (by rw [h]) else Decidable.isFalse (by simp [h])
  | Except.ok a, Except.ok b =>
    if h : a = b then Decidable.isTrue (by rw [h]) else Decidable.isFalse (by simp [h])
  | Except.error a, Except.ok b => Decidable.isFalse (by simp)
  | Except.ok a, Except.error b => Decidable.isFalse (by simp)

/-- Modelled from the spec: the two validation failures of QueryGuard. -/
inductive QueryError where
  | UnsafeQueryError
  | SchemaMismatchError
  deriving DecidableEq

/-- Modelled from the spec: QueryGuard validation — reject non-SELECT and
multi-statement input with `UnsafeQueryError`, reject unknown tables/columns
with `SchemaMismatchError`, and wrap a statement lacking a row limit with the
maximum row-count cap.  Returns the statement to dispatch, or the error. -/
def guardValidate (sch : Schema) (maxRows : Nat) (sql : String) : Except QueryError String :=
  if !(isSelectStmt sql) || isMultiStatement sql then
    Except.error QueryError.UnsafeQueryError
  else if !(schemaOk sch sql) then
    Except.error QueryError.SchemaMismatchError
  else if hasLimitClause sql then
    Except.ok sql
  else
    Except.ok (wrapWithLimit sql maxRows)

/-- Modelled from the spec: `QueryGuard.execute` — validate, then delegate
the validated statement to `StorageBackend.query`; on rejection the backend
is never consulted. -/
def QueryGuard.execute (sch : Schema) (maxRows : Nat) (backend : String → Table)
    (sql : String) : Except QueryError Table :=
  match guardValidate sch maxRows sql with
  | Except.error e => Except.error e
  | Except.ok q => Except.ok (backend q)

/-- Lines of an LLM response with code-fence lines removed. -/
def stripFences (resp : String) : String :=
  joinWith "\n"
    ((splitChars (fun c => c == '\n') resp.data []).filter
      (fun l => !(List.isPrefixOf ("```".data) (trimStr l).data)))

/-- Keywords that can open a line of a SQL statement (its first line or a
continuation line). -/
def sqlLineStarters : List String :=
  ["SELECT", "FROM", "WHERE", "GROUP", "ORDER", "HAVING", "LIMIT", "OFFSET", "JOIN",
   "INNER", "LEFT", "RIGHT", "OUTER", "FULL", "CROSS", "ON", "AND", "OR", "UNION",
   "BY", "WITH"]

/-- Whether a character list begins with the token SELECT (case-insensitive,
followed by a separator or the end). -/
def isSelectTokenPrefix : List Char → Bool
  | c1 :: c2 :: c3 :: c4 :: c5 :: c6 :: rest =>
    upChar c1 == 'S' && upChar c2 == 'E' && upChar c3 == 'L' && upChar c4 == 'E'
    && upChar c5 == 'C' && upChar c6 == 'T'
    && (match rest with
        | [] => true
        | c7 :: _ => isSepChar c7)
  | _ => false

/-- Verbatim suffix of a character list from its first SELECT token (matched
only at a token boundary); `none` when no SELECT occurs.  The boolean says
whether the scan currently sits at a token boundary. -/
def findSelectSuffix : Bool → List Char → Option (List Char)
  | _, [] => none
  | atB, c :: cs =>
    if atB && isSelectTokenPrefix (c :: cs) then some (c :: cs)
    else findSelectSuffix (isSepChar c) cs

/-- SQL part of one response line, kept verbatim: a line opening with a SQL
keyword is kept whole (statement or continuation line); a prose line is kept
from its embedded SELECT token onwards when one occurs, and dropped
otherwise. -/
def lineSql (l : String) : Option String :=
  if sqlLineStarters.contains (upStr ((rawTokens l).headD "")) then some l
  else
    match findSelectSuffix true l.data with
    | some suffix => some (String.mk suffix)
    | none => none

/-- Modelled from the spec: the parseable SQL statements of a raw LLM
response — code-fence lines removed, explanatory prose lines stripped, the
remaining text split on semicolons, and each trimmed segment beginning with
SELECT returned verbatim (commas, parentheses and spacing preserved). -/
def extractStatements (resp : String) : List String :=
  let sqlText := joinWith "\n"
    ((splitChars (fun c => c == '\n') (stripFences resp).data []).filterMap lineSql)
  ((splitChars (fun c => c == ';') sqlText.data []).map trimStr).filter
    (fun s => upStr ((rawTokens s).headD "") == "SELECT")

/-- Modelled from the spec: the translation prompt embedding the schema and
the question. -/
def sqlPrompt (question : String) (sch : Schema) : String :=
  "Translate to SQL. Schema: "
    ++ joinWith ", "
        (sch.map (fun ts => ts.name ++ " (" ++ joinWith ", " ts.columns ++ ")"))
    ++ ". Question: " ++ question

/-- Modelled from the spec: the causes of `TranslationError`. -/
inductive TranslationError where
  | gatewayFailure
  | noStatement
  | multipleStatements
  deriving DecidableEq

/-- Modelled from the spec: `QueryTranslator.translate` — prompt the gateway
(with bounded retry), then extract exactly one SQL statement; fail with
`TranslationError` when the gateway fails after retry or when the response
holds zero or more than one parseable statement. -/
def QueryTranslator.translate (cfg : EnrichConfig) (question : String) (sch : Schema) :
    Except TranslationError String :=
  match callWithRetry cfg.gw (sqlPrompt question sch) 0 cfg.maxAttempts with
  | none => Except.error TranslationError.gatewayFailure
  | some (raw, _) =>
    match extractStatements raw with
    | [] => Except.error TranslationError.noStatement
    | [s] => Except.ok s
    | _ => Except.error TranslationError.multipleStatements

/-- Embeds the dashboard query flow (`dashboard.py` lines 218-261): translate
the question, then execute through the guard; a failure of either step aborts
this single query and is surfaced. -/
def dashboardQuery (cfg : EnrichConfig) (sch : Schema) (maxRows : Nat)
    (backend : String → Table) (q : String) : Except (TranslationError ⊕ QueryError) Table :=
  match QueryTranslator.translate cfg q sch with
  | Except.error e => Except.error (Sum.inl e)
  | Except.ok sql =>
    match QueryGuard.execute sch maxRows backend sql with
    | Except.error e => Except.error (Sum.inr e)
    | Except.ok t => Except.ok t

/-- The demo schema: the enriched reviews table. -/
def demoSchema : Schema :=
  [{ name := "reviews",
     columns := ["review_id", "text", "rating", "category",
                 "sentiment", "keywords", "summary"] }]

/-- C2: QueryGuard rejects input whose top-level keyword is INSERT, UPDATE,
DELETE or DROP, and multi-statement input, with `UnsafeQueryError`; rejects
any statement referencing a table or a column outside the known schema —
wherever in the statement the reference occurs — with `SchemaMismatchError`;
wraps a statement lacking a row limit with the maximum row-count cap; and on
every rejection the query is never passed to the storage backend — the
outcome is the error, independent of the backend. -/
theorem queryGuard_validation (sch : Schema) (maxRows : Nat) (sql : String) :
    ((firstKeyword sql = "INSERT" ∨ firstKeyword sql = "UPDATE"
        ∨ firstKeyword sql = "DELETE" ∨ firstKeyword sql = "DROP") →
      guardValidate sch maxRows sql = Except.error QueryError.UnsafeQueryError)
    ∧ (isMultiStatement sql = true →
      guardValidate sch maxRows sql = Except.error QueryError.UnsafeQueryError)
    ∧ (isSelectStmt sql = true → isMultiStatement sql = false → schemaOk sch sql = false →
      guardValidate sch maxRows sql = Except.error QueryError.SchemaMismatchError)
    ∧ (isSelectStmt sql = true → isMultiStatement sql = false →
        ∀ tbl ∈ referencedTables sql, schemaHasTable sch tbl = false →
      guardValidate sch maxRows sql = Except.error QueryError.SchemaMismatchError)
    ∧ (isSelectStmt sql = true → isMultiStatement sql = false →
        ∀ col ∈ referencedColumns sql, schemaHasColumn sch col = false →
      guardValidate sch maxRows sql = Except.error QueryError.SchemaMismatchError)
    ∧ (isSelectStmt sql = true → isMultiStatement sql = false → schemaOk sch sql = true →
        hasLimitClause sql = false →
      guardValidate sch maxRows sql = Except.ok (wrapWithLimit sql maxRows))
    ∧ (∀ e : QueryError, guardValidate sch maxRows sql = Except.error e →
        ∀ b1 b2 : String → Table,
          QueryGuard.execute sch maxRows b1 sql = Except.error e
          ∧ QueryGuard.execute sch maxRows b1 sql = QueryGuard.execute sch maxRows b2 sql) := by
  refine ⟨?_, ?_, ?_, ?_, ?_, ?_, ?_⟩
  · intro hkw
    have hsel : isSelectStmt sql = false := by
      rcases hkw with h | h | h | h <;> simp [isSelectStmt, h]
    simp [guardValidate, hsel]
  · intro hm
    simp [guardValidate, hm]
  · intro hsel hm hsch
    simp [guardValidate, hsel, hm, hsch]
  · intro hsel hm tbl htbl hfalse
    have hsch : schemaOk sch sql = false := by
      cases hok : schemaOk sch sql with
      | false => rfl
      | true =>
        exfalso
        unfold schemaOk at hok
        have htables := (Bool.and_eq_true_iff.mp hok).1
        have hall := List.all_eq_true.mp htables tbl htbl
        rw [hfalse] at hall
        exact absurd hall (by decide)
    simp [guardValidate, hsel, hm, hsch]
  · intro hsel hm col hcol hfalse
    have hsch : schemaOk sch sql = false := by
      cases hok : schemaOk sch sql with
      | false => rfl
      | true =>
        exfalso
        unfold schemaOk at hok
        have hcols := (Bool.and_eq_true_iff.mp hok).2
        have hall := List.all_eq_true.mp hcols col hcol
        rw [hfalse] at hall
        exact absurd hall (by decide)
    simp [guardValidate, hsel, hm, hsch]
  · intro hsel hm hsch hlim
    simp [guardValidate, hsel, hm, hsch, hlim]
  · intro e he b1 b2
    constructor <;> simp [QueryGuard.execute, he]

/-- Witness for C2 at concrete inputs: a DROP statement, a multi-statement
input, an unknown table, an unknown column in a WHERE clause, and a SELECT
without a limit. -/
theorem queryGuard_validation_witness :
    guardValidate demoSchema 100 "DROP TABLE reviews" = Except.error QueryError.UnsafeQueryError
    ∧ guardValidate demoSchema 100 "SELECT text FROM reviews; DROP TABLE reviews"
        = Except.error QueryError.UnsafeQueryError
    ∧ guardValidate demoSchema 100 "SELECT text FROM nonexistent_table"
        = Except.error QueryError.SchemaMismatchError
    ∧ guardValidate demoSchema 100 "SELECT text FROM reviews WHERE bogus_col = 5"
        = Except.error QueryError.SchemaMismatchError
    ∧ guardValidate demoSchema 100 "SELECT text FROM reviews"
        = Except.ok (wrapWithLimit "SELECT text FROM reviews" 100)
    ∧ QueryGuard.execute demoSchema 100 (fun _ => [[("text", "ignored")]]) "DROP TABLE reviews"
        = Except.error QueryError.UnsafeQueryError :=
  ⟨(queryGuard_validation demoSchema 100 "DROP TABLE reviews").1
      (Or.inr (Or.inr (Or.inr (by decide)))),
   (queryGuard_validation demoSchema 100 "SELECT text FROM reviews; DROP TABLE reviews").2.1
      (by decide),
   (queryGuard_validation demoSchema 100 "SELECT text FROM nonexistent_table").2.2.2.1
      (by decide) (by decide) "nonexistent_table" (by decide) (by decide),
   (queryGuard_validation demoSchema 100 "SELECT text FROM reviews WHERE bogus_col = 5").2.2.2.2.1
      (by decide) (by decide) "bogus_col" (by decide) (by decide),
   (queryGuard_validation demoSchema 100 "SELECT text FROM reviews").2.2.2.2.2.1
      (by decide) (by decide) (by decide) (by decide),
   ((queryGuard_validation demoSchema 100 "DROP TABLE reviews").2.2.2.2.2.2
      QueryError.UnsafeQueryError
      ((queryGuard_validation demoSchema 100 "DROP TABLE reviews").1
        (Or.inr (Or.inr (Or.inr (by decide)))))
      (fun _ => [[("text", "ignored")]]) (fun _ => [])).1⟩

/-- C7: the translator returns the single SQL statement extracted from the
gateway response (prose and fencing stripped by the extraction); it fails
with a `TranslationError` exactly when the gateway fails after retry or the
response yields zero or more than one parseable statement; and on a
translation error the dashboard query flow surfaces the error and never
executes anything — its outcome is independent of the backend. -/
theorem translator_contract (cfg : EnrichConfig) (q : String) (sch : Schema) (maxRows : Nat) :
    (∀ s : String, QueryTranslator.translate cfg q sch = Except.ok s →
      ∃ raw lat, callWithRetry cfg.gw (sqlPrompt q sch) 0 cfg.maxAttempts = some (raw, lat)
        ∧ extractStatements raw = [s])
    ∧ ((∃ e, QueryTranslator.translate cfg q sch = Except.error e) ↔
        (callWithRetry cfg.gw (sqlPrompt q sch) 0 cfg.maxAttempts = none
         ∨ ∃ raw lat, callWithRetry cfg.gw (sqlPrompt q sch) 0 cfg.maxAttempts = some (raw, lat)
             ∧ (extractStatements raw).length ≠ 1))
    ∧ (∀ e, QueryTranslator.translate cfg q sch = Except.error e →
        ∀ b1 b2 : String → Table,
          dashboardQuery cfg sch maxRows b1 q = Except.error (Sum.inl e)
          ∧ dashboardQuery cfg sch maxRows b1 q = dashboardQuery cfg sch maxRows b2 q) := by
  refine ⟨?_, ?_, ?_⟩
  · intro s hs
    cases hcall : callWithRetry cfg.gw (sqlPrompt q sch) 0 cfg.maxAttempts with
    | none => simp [QueryTranslator.translate, hcall] at hs
    | some p =>
      obtain ⟨raw, lat⟩ := p
      refine ⟨raw, lat, rfl, ?_⟩
      cases hext : extractStatements raw with
      | nil => simp [QueryTranslator.translate, hcall, hext] at hs
      | cons s1 rest =>
        cases rest with
        | nil =>
          simp [QueryTranslator.translate, hcall, hext] at hs
          rw [hs]
        | cons s2 rest2 => simp [QueryTranslator.translate, hcall, hext] at hs
  · constructor
    · rintro ⟨e, he⟩
      cases hcall : callWithRetry cfg.gw (sqlPrompt q sch) 0 cfg.maxAttempts with
      | none => exact Or.inl rfl
      | some p =>
        obtain ⟨raw, lat⟩ := p
        refine Or.inr ⟨raw, lat, rfl, ?_⟩
        cases hext : extractStatements raw with
        | nil => simp [hext]
        | cons s1 rest =>
          cases rest with
          | nil => simp [QueryTranslator.translate, hcall, hext] at he
          | cons s2 rest2 => simp [hext]
    · rintro (hnone | ⟨raw, lat, hsome, hlen⟩)
      · exact ⟨TranslationError.gatewayFailure, by simp [QueryTranslator.translate, hnone]⟩
      · cases hext : extractStatements raw with
        | nil =>
          exact ⟨TranslationError.noStatement, by simp [QueryTranslator.translate, hsome, hext]⟩
        | cons s1 rest =>
          cases rest with
          | nil =>
            rw [hext] at hlen
            simp at hlen
          | cons s2 rest2 =>
            exact ⟨TranslationError.multipleStatements,
              by simp [QueryTranslator.translate, hsome, hext]⟩
  · intro e he b1 b2
    constructor <;> simp [dashboardQuery, he]

/-- A gateway whose response wraps one SQL statement in prose and fences. -/
def cfgSqlStub : EnrichConfig :=
  { gw := fun _ _ => GatewayOutcome.success
      "Here is the query:\n```sql\nSELECT text FROM reviews\n```" 1,
    parse := fun _ => none,
    maxAttempts := 3,
    buildPrompt := fun t => t }

/-- A gateway whose fenced response holds a statement with commas and
parentheses. -/
def cfgSqlStub2 : EnrichConfig :=
  { gw := fun _ _ => GatewayOutcome.success
      "Here is the query:\n```sql\nSELECT sentiment, COUNT(*) FROM reviews GROUP BY sentiment\n```" 1,
    parse := fun _ => none,
    maxAttempts := 3,
    buildPrompt := fun t => t }

/-- A gateway whose response follows the statement with a prose line. -/
def cfgSqlStub3 : EnrichConfig :=
  { gw := fun _ _ => GatewayOutcome.success
      "SELECT text FROM reviews\nHope this helps!" 1,
    parse := fun _ => none,
    maxAttempts := 3,
    buildPrompt := fun t => t }

/-- Witness for C7 at concrete inputs: a fenced single-statement response is
extracted verbatim; a statement with commas and parentheses survives
extraction unchanged; trailing prose is stripped; and a gateway that fails
after retry surfaces a translation error without executing anything. -/
theorem translator_contract_witness :
    (∃ raw lat, callWithRetry cfgSqlStub.gw (sqlPrompt "show texts" demoSchema) 0 cfgSqlStub.maxAttempts
        = some (raw, lat)
      ∧ extractStatements raw = ["SELECT text FROM reviews"])
    ∧ (∃ raw lat, callWithRetry cfgSqlStub2.gw (sqlPrompt "sentiment counts" demoSchema) 0 cfgSqlStub2.maxAttempts
        = some (raw, lat)
      ∧ extractStatements raw = ["SELECT sentiment, COUNT(*) FROM reviews GROUP BY sentiment"])
    ∧ (∃ raw lat, callWithRetry cfgSqlStub3.gw (sqlPrompt "show texts" demoSchema) 0 cfgSqlStub3.maxAttempts
        = some (raw, lat)
      ∧ extractStatements raw = ["SELECT text FROM reviews"])
    ∧ dashboardQuery cfgFail demoSchema 100 (fun _ => [[("text", "x")]]) "show texts"
        = Except.error (Sum.inl TranslationError.gatewayFailure) :=
  ⟨(translator_contract cfgSqlStub "show texts" demoSchema 100).1
      "SELECT text FROM reviews" (by decide),
   (translator_contract cfgSqlStub2 "sentiment counts" demoSchema 100).1
      "SELECT sentiment, COUNT(*) FROM reviews GROUP BY sentiment" (by decide),
   (translator_contract cfgSqlStub3 "show texts" demoSchema 100).1
      "SELECT text FROM reviews" (by decide),
   ((translator_contract cfgFail "show texts" demoSchema 100).2.2
      TranslationError.gatewayFailure (by decide)
      (fun _ => [[("text", "x")]]) (fun _ => [])).1⟩

/-! ### Dashboard embeddings (`src/dashboard.py`, `src/demo.py`) -/

/-- The ambient Streamlit session state, restricted to the run-metrics slot. -/
abbrev Session := List (String × RunMetrics)

/-- Embeds `st.session_state.get('enrich_metrics')` (`dashboard.py` line
115). -/
def readEnrichMetrics : Session → Option RunMetrics
  | [] => none
  | (k, m) :: rest => if k = "enrich_metrics" then some m else readEnrichMetrics rest

/-- Embeds the dashboard enrichment flow (`dashboard.py` lines 104-123, and
identically `demo.py` lines 83-87): `enrich_dataframe` is invoked with the
dataframe, the selected text column and the model only — the batch-size
setting feeds progress messages and is never passed to the call — and the
run metrics displayed afterwards are read from the ambient session state key
`enrich_metrics`, not from the call's return value.  The abstract
`enrich_dataframe` takes and returns the session to embed Python's mutation
of `st.session_state`. -/
def dashboardEnrichFlow
    (enrich_dataframe : Table → String → String → Session → Table × Session)
    (df : Table) (text_column mdl : String) (batch_size : Nat) (session : Session) :
    Table × Option RunMetrics :=
  let p := enrich_dataframe df text_column mdl session
  (p.1, readEnrichMetrics p.2)

/-- Sample metrics value. -/
def sampleMetrics1 : RunMetrics :=
  { rows_processed := 1, cache_hits := 0, api_calls := 1,
    total_latency_s := 1, failures := 0 }

/-- Another sample metrics value. -/
def sampleMetrics2 : RunMetrics :=
  { rows_processed := 2, cache_hits := 1, api_calls := 1,
    total_latency_s := 1, failures := 0 }

/-- A stub `enrich_dataframe` that returns its input table and publishes
`sampleMetrics1` in the session state. -/
def stubEnrich1 : Table → String → String → Session → Table × Session :=
  fun df _ _ s => (df, ("enrich_metrics", sampleMetrics1) :: s)

/-- A stub `enrich_dataframe` that returns the same table as `stubEnrich1`
but publishes `sampleMetrics2`. -/
def stubEnrich2 : Table → String → String → Session → Table × Session :=
  fun df _ _ s => (df, ("enrich_metrics", sampleMetrics2) :: s)

/-- Counterexample for C4: in the dashboard flow embedded from
`dashboard.py`, two enrichment implementations whose synchronous return
values coincide still make the dashboard display different RunMetrics — the
metrics travel through the ambient session state, not the result — and
changing the batch-size setting from 1 to 50 does not change the enrichment
invocation at all, because no batch_size argument is passed. -/
theorem enrich_surface_counterexample :
    (stubEnrich1 [] "text" "m" []).1 = (stubEnrich2 [] "text" "m" []).1
    ∧ dashboardEnrichFlow stubEnrich1 [] "text" "m" 10 []
        ≠ dashboardEnrichFlow stubEnrich2 [] "text" "m" 10 []
    ∧ dashboardEnrichFlow stubEnrich1 [] "text" "m" 1 []
        = dashboardEnrichFlow stubEnrich1 [] "text" "m" 50 [] := by
  refine ⟨rfl, ?_, rfl⟩
  intro h
  simp [dashboardEnrichFlow, stubEnrich1, stubEnrich2, readEnrichMetrics,
    sampleMetrics1, sampleMetrics2] at h

/-- C4 (amended): the enrichment entry point is invoked with the record
table, the text column and the model only; its synchronous result is the
enriched table alone, the batch-size setting never reaches the call, and the
displayed RunMetrics value is read from the session state the call
mutated. -/
theorem enrich_surface_amended
    (f : Table → String → String → Session → Table × Session)
    (df : Table) (tc mdl : String) (b b2 : Nat) (s : Session) :
    dashboardEnrichFlow f df tc mdl b s = dashboardEnrichFlow f df tc mdl b2 s
    ∧ (dashboardEnrichFlow f df tc mdl b s).1 = (f df tc mdl s).1
    ∧ (dashboardEnrichFlow f df tc mdl b s).2 = readEnrichMetrics (f df tc mdl s).2 :=
  ⟨rfl, rfl, rfl⟩

/-- Embeds `dashboard.py` line 122: the displayed average API latency is
`total_latency_s / max(1, api_calls)`. -/
def dashboardAvgLatency (m : RunMetrics) : ℚ :=
  m.total_latency_s / ((max 1 m.api_calls : Nat) : ℚ)

/-- C10: the average-latency divisor `max 1 api_calls` is never zero — the
display is defined for every metrics value — and when `api_calls = 0` the
displayed average equals `total_latency_s`. -/
theorem dashboardAvgLatency_total (m : RunMetrics) :
    (((max 1 m.api_calls : Nat) : ℚ) ≠ 0)
    ∧ (m.api_calls = 0 → dashboardAvgLatency m = m.total_latency_s) := by
  constructor
  · exact Nat.cast_ne_zero.mpr (by omega)
  · intro h0
    simp [dashboardAvgLatency, h0]

/-- Witness for C10 at a concrete input: with no API calls the displayed
average equals the total latency. -/
theorem dashboardAvgLatency_total_witness :
    dashboardAvgLatency
      { rows_processed := 5, cache_hits := 5, api_calls := 0,
        total_latency_s := 7, failures := 1 } = 7 :=
  (dashboardAvgLatency_total
      { rows_processed := 5, cache_hits := 5, api_calls := 0,
        total_latency_s := 7, failures := 1 }).2 rfl

/-! ### Concurrent dispatch model (modelled from the spec, sections 4.1 and 5):
tasks run under an arbitrary interleaving; an in-flight registry keyed by
CacheKey arbitrates gateway calls (coalescing), and a log records every
gateway invocation. -/

/-- Modelled from the spec: lifecycle of one concurrently dispatched row —
not yet scheduled, blocked on an in-flight computation, or finished. -/
inductive TaskStatus where
  | ready
  | waiting (k : CacheKey)
  | done (r : EnrichmentResult)
  deriving DecidableEq

/-- A concurrently processed row: its text and its status. -/
structure ConcTask where
  text : String
  status : TaskStatus
  deriving DecidableEq

/-- State of a concurrent enrichment batch: the tasks, the cache, the
registry of in-flight computations (each with the result its gateway call
will produce), and the log of gateway invocations. -/
structure ConcState where
  tasks : List ConcTask
  cache : CacheStore
  inflight : CacheStore
  calls : List CacheKey
  deriving DecidableEq

/-- The result an uncached text's dispatch produces. -/
def missResult (cfg : EnrichConfig) (t : String) : EnrichmentResult :=
  (dispatchMiss cfg t).1

/-- Removal of a key from a store. -/
def removeKey : CacheStore → CacheKey → CacheStore
  | [], _ => []
  | (k2, r) :: rest, k =>
    if k2 = k then removeKey rest k else (k2, r) :: removeKey rest k

/-- Completion of the in-flight computation for `k` unblocks every task
waiting on `k` with its result. -/
def releaseWaiter (k : CacheKey) (r : EnrichmentResult) (task : ConcTask) : ConcTask :=
  match task.status with
  | TaskStatus.waiting k2 =>
    if k2 = k then { text := task.text, status := TaskStatus.done r } else task
  | _ => task

/-- Number of occurrences of a key in the call log. -/
def countKey : List CacheKey → CacheKey → Nat
  | [], _ => 0
  | k2 :: rest, k => (if k2 = k then 1 else 0) + countKey rest k

/-- Modelled from the spec: one scheduler step of concurrent enrichment.
A ready task is served from cache (`hit`), blocks on an existing in-flight
computation for its key (`coalesce`), or — only when its key is neither
cached nor in flight — invokes the gateway and registers the computation
(`dispatch`); an in-flight computation completes (`complete`), publishing
its result to the cache and to every waiting task. -/
inductive ConcStep (cfg : EnrichConfig) (mdl : String) : ConcState → ConcState → Prop where
  | hit (s : ConcState) (i : Nat) (t : String) (r : EnrichmentResult)
      (htask : s.tasks[i]? = some { text := t, status := TaskStatus.ready })
      (hcache : CacheStore.get s.cache (cacheKey t mdl) = some r) :
      ConcStep cfg mdl s
        { s with tasks := s.tasks.set i { text := t, status := TaskStatus.done r } }
  | coalesce (s : ConcState) (i : Nat) (t : String) (r : EnrichmentResult)
      (htask : s.tasks[i]? = some { text := t, status := TaskStatus.ready })
      (hcache : CacheStore.get s.cache (cacheKey t mdl) = none)
      (hinf : CacheStore.get s.inflight (cacheKey t mdl) = some r) :
      ConcStep cfg mdl s
        { s with tasks := s.tasks.set i { text := t, status := TaskStatus.waiting (cacheKey t mdl) } }
  | dispatch (s : ConcState) (i : Nat) (t : String)
      (htask : s.tasks[i]? = some { text := t, status := TaskStatus.ready })
      (hcache : CacheStore.get s.cache (cacheKey t mdl) = none)
      (hinf : CacheStore.get s.inflight (cacheKey t mdl) = none) :
      ConcStep cfg mdl s
        { s with
          tasks := s.tasks.set i { text := t, status := TaskStatus.waiting (cacheKey t mdl) },
          inflight := CacheStore.put s.inflight (cacheKey t mdl) (missResult cfg t),
          calls := cacheKey t mdl :: s.calls }
  | complete (s : ConcState) (k : CacheKey) (r : EnrichmentResult)
      (hinf : CacheStore.get s.inflight k = some r) :
      ConcStep cfg mdl s
        { s with
          tasks := s.tasks.map (releaseWaiter k r),
          cache := CacheStore.put s.cache k r,
          inflight := removeKey s.inflight k }

/-- Reachability under scheduler steps. -/
inductive ConcReach (cfg : EnrichConfig) (mdl : String) : ConcState → ConcState → Prop where
  | refl (s : ConcState) : ConcReach cfg mdl s s
  | tail (s1 s2 s3 : ConcState) :
      ConcReach cfg mdl s1 s2 → ConcStep cfg mdl s2 s3 → ConcReach cfg mdl s1 s3

/-- The coalescing invariant for the key of text `t`: at most one gateway
call was logged; a logged call is witnessed by the in-flight registry or the
cache; registry and cache hold only the dispatched result; every finished
task with text `t` carries that result and is preceded by a logged call; and
a task with text `t` only ever waits on its own key. -/
def CoalesceInv (cfg : EnrichConfig) (mdl t : String) (s : ConcState) : Prop :=
  countKey s.calls (cacheKey t mdl) ≤ 1
  ∧ (1 ≤ countKey s.calls (cacheKey t mdl) →
      (CacheStore.get s.inflight (cacheKey t mdl)).isSome
      ∨ (CacheStore.get s.cache (cacheKey t mdl)).isSome)
  ∧ ((CacheStore.get s.inflight (cacheKey t mdl)).isSome
      ∨ (CacheStore.get s.cache (cacheKey t mdl)).isSome →
      1 ≤ countKey s.calls (cacheKey t mdl))
  ∧ (∀ r, CacheStore.get s.inflight (cacheKey t mdl) = some r → r = missResult cfg t)
  ∧ (∀ r, CacheStore.get s.cache (cacheKey t mdl) = some r → r = missResult cfg t)
  ∧ (∀ task ∈ s.tasks, task.text = t →
      ∀ r, task.status = TaskStatus.done r →
        r = missResult cfg t ∧ 1 ≤ countKey s.calls (cacheKey t mdl))
  ∧ (∀ task ∈ s.tasks, task.text = t →
      ∀ k2, task.status = TaskStatus.waiting k2 → k2 = cacheKey t mdl)

theorem get_removeKey_same (c : CacheStore) (k : CacheKey) :
    CacheStore.get (removeKey c k) k = none := by
  induction c with
  | nil => rfl
  | cons e rest ih =>
    obtain ⟨k2, r⟩ := e
    by_cases h : k2 = k
    · simp [removeKey, h, ih]
    · have h2 : ¬(k = k2) := fun he => h he.symm
      simp [removeKey, h, CacheStore.get, h2, ih]

theorem get_removeKey_ne (c : CacheStore) (k k2 : CacheKey) (h : k2 ≠ k) :
    CacheStore.get (removeKey c k) k2 = CacheStore.get c k2 := by
  induction c with
  | nil => rfl
  | cons e rest ih =>
    obtain ⟨k3, r⟩ := e
    by_cases h3 : k3 = k
    · subst h3
      simp [removeKey, CacheStore.get, h, ih]
    · simp [removeKey, h3, CacheStore.get, ih]

theorem cacheKey_inj (t1 t2 mdl : String) (h : cacheKey t1 mdl = cacheKey t2 mdl) :
    t1 = t2 := by
  simpa [cacheKey] using congrArg CacheKey.text h

theorem releaseWaiter_cases (k : CacheKey) (r : EnrichmentResult) (task : ConcTask) :
    releaseWaiter k r task = task
    ∨ (task.status = TaskStatus.waiting k
        ∧ releaseWaiter k r task = { text := task.text, status := TaskStatus.done r }) := by
  obtain ⟨tx, stt⟩ := task
  cases stt with
  | ready => left; rfl
  | waiting k2 =>
    by_cases h : k2 = k
    · subst h
      right
      exact ⟨rfl, by simp [releaseWaiter]⟩
    · left
      simp [releaseWaiter, h]
  | done r2 => left; rfl

theorem coalesceInv_step (cfg : EnrichConfig) (mdl t : String) (s1 s2 : ConcState)
    (hstep : ConcStep cfg mdl s1 s2) (hinv : CoalesceInv cfg mdl t s1) :
    CoalesceInv cfg mdl t s2 := by
  obtain ⟨h1, h2, h3, h4, h5, h6, h7⟩ := hinv
  cases hstep with
  | hit i t2 r htask hcache =>
    refine ⟨h1, h2, h3, h4, h5, ?_, ?_⟩
    · intro task htm htx r2 hdone
      rcases List.mem_or_eq_of_mem_set htm with hmem | heq
      · exact h6 task hmem htx r2 hdone
      · subst heq
        simp at htx hdone
        subst htx
        subst hdone
        exact ⟨h5 r hcache, h3 (Or.inr (by simp [hcache]))⟩
    · intro task htm htx k2 hwait
      rcases List.mem_or_eq_of_mem_set htm with hmem | heq
      · exact h7 task hmem htx k2 hwait
      · subst heq
        simp at hwait
  | coalesce i t2 r htask hcache hinf =>
    refine ⟨h1, h2, h3, h4, h5, ?_, ?_⟩
    · intro task htm htx r2 hdone
      rcases List.mem_or_eq_of_mem_set htm with hmem | heq
      · exact h6 task hmem htx r2 hdone
      · subst heq
        simp at hdone
    · intro task htm htx k2 hwait
      rcases List.mem_or_eq_of_mem_set htm with hmem | heq
      · exact h7 task hmem htx k2 hwait
      · subst heq
        simp at htx hwait
        subst htx
        rw [← hwait]
  | dispatch i t2 htask hcache hinf =>
    by_cases ht : t2 = t
    · subst ht
      have hcount0 : countKey s1.calls (cacheKey t2 mdl) = 0 := by
        by_contra hne
        have hge : 1 ≤ countKey s1.calls (cacheKey t2 mdl) := by omega
        rcases h2 hge with hsome | hsome
        · rw [hinf] at hsome
          simp at hsome
        · rw [hcache] at hsome
          simp at hsome
      refine ⟨?_, ?_, ?_, ?_, ?_, ?_, ?_⟩
      · simp [countKey, hcount0]
      · intro _
        left
        simp [get_put_same]
      · intro _
        simp [countKey]
      · intro r2 hr2
        rw [get_put_same] at hr2
        simp at hr2
        rw [← hr2]
      · exact h5
      · intro task htm htx r2 hdone
        rcases List.mem_or_eq_of_mem_set htm with hmem | heq
        · obtain ⟨hr2, hc⟩ := h6 task hmem htx r2 hdone
          refine ⟨hr2, ?_⟩
          simp [countKey]
        · subst heq
          simp at hdone
      · intro task htm htx k2 hwait
        rcases List.mem_or_eq_of_mem_set htm with hmem | heq
        · exact h7 task hmem htx k2 hwait
        · subst heq
          simp at htx hwait
          rw [← hwait]
    · have hkne : cacheKey t2 mdl ≠ cacheKey t mdl := fun he => ht (cacheKey_inj _ _ _ he)
      refine ⟨?_, ?_, ?_, ?_, ?_, ?_, ?_⟩
      · simpa [countKey, hkne] using h1
      · intro hcnt
        simp only [countKey] at hcnt
        rw [if_neg hkne] at hcnt
        simp at hcnt
        rcases h2 hcnt with hs | hs
        · left
          simpa [get_put_ne _ _ _ _ (Ne.symm hkne)] using hs
        · right
          simpa using hs
      · intro hor
        have hbase : 1 ≤ countKey s1.calls (cacheKey t mdl) := by
          apply h3
          rcases hor with hs | hs
          · left
            rw [get_put_ne _ _ _ _ (Ne.symm hkne)] at hs
            exact hs
          · right
            exact hs
        simp only [countKey]
        rw [if_neg hkne]
        omega
      · intro r2 hr2
        rw [get_put_ne _ _ _ _ (Ne.symm hkne)] at hr2
        exact h4 r2 hr2
      · exact h5
      · intro task htm htx r2 hdone
        rcases List.mem_or_eq_of_mem_set htm with hmem | heq
        · obtain ⟨hr2, hc⟩ := h6 task hmem htx r2 hdone
          refine ⟨hr2, ?_⟩
          simp only [countKey]
          rw [if_neg hkne]
          omega
        · subst heq
          simp at hdone
      · intro task htm htx k2 hwait
        rcases List.mem_or_eq_of_mem_set htm with hmem | heq
        · exact h7 task hmem htx k2 hwait
        · subst heq
          simp at htx hwait
          exact absurd htx ht
  | complete k2 r hinf2 =>
    by_cases hk : k2 = cacheKey t mdl
    · subst hk
      have hr0 : r = missResult cfg t := h4 r hinf2
      have hc1 : 1 ≤ countKey s1.calls (cacheKey t mdl) := h3 (Or.inl (by simp [hinf2]))
      refine ⟨h1, ?_, ?_, ?_, ?_, ?_, ?_⟩
      · intro _
        right
        simp [get_put_same]
      · intro _
        exact hc1
      · intro r2 hr2
        rw [get_removeKey_same] at hr2
        cases hr2
      · intro r2 hr2
        rw [get_put_same] at hr2
        simp at hr2
        rw [← hr2]
        exact hr0
      · intro task htm htx r2 hdone
        obtain ⟨orig, horig, rfl⟩ := List.mem_map.mp htm
        rcases releaseWaiter_cases (cacheKey t mdl) r orig with hsame | ⟨hw, hrw⟩
        · rw [hsame] at htx hdone
          exact h6 orig horig htx r2 hdone
        · rw [hrw] at htx hdone
          simp at htx hdone
          rw [← hdone, hr0]
          exact ⟨rfl, hc1⟩
      · intro task htm htx k3 hwait
        obtain ⟨orig, horig, rfl⟩ := List.mem_map.mp htm
        rcases releaseWaiter_cases (cacheKey t mdl) r orig with hsame | ⟨hw, hrw⟩
        · rw [hsame] at htx hwait
          exact h7 orig horig htx k3 hwait
        · rw [hrw] at hwait
          simp at hwait
    · have hknr : cacheKey t mdl ≠ k2 := fun he => hk he.symm
      refine ⟨h1, ?_, ?_, ?_, ?_, ?_, ?_⟩
      · intro hcnt
        rcases h2 hcnt with hs | hs
        · left
          simpa [get_removeKey_ne _ _ _ hknr] using hs
        · right
          simpa [get_put_ne _ _ _ _ hknr] using hs
      · intro hor
        apply h3
        rcases hor with hs | hs
        · left
          rw [get_removeKey_ne _ _ _ hknr] at hs
          exact hs
        · right
          rw [get_put_ne _ _ _ _ hknr] at hs
          exact hs
      · intro r2 hr2
        rw [get_removeKey_ne _ _ _ hknr] at hr2
        exact h4 r2 hr2
      · intro r2 hr2
        rw [get_put_ne _ _ _ _ hknr] at hr2
        exact h5 r2 hr2
      · intro task htm htx r2 hdone
        obtain ⟨orig, horig, rfl⟩ := List.mem_map.mp htm
        rcases releaseWaiter_cases k2 r orig with hsame | ⟨hw, hrw⟩
        · rw [hsame] at htx hdone
          exact h6 orig horig htx r2 hdone
        · rw [hrw] at htx
          simp at htx
          exact absurd (h7 orig horig htx k2 hw) hk
      · intro task htm htx k3 hwait
        obtain ⟨orig, horig, rfl⟩ := List.mem_map.mp htm
        rcases releaseWaiter_cases k2 r orig with hsame | ⟨hw, hrw⟩
        · rw [hsame] at htx hwait
          exact h7 orig horig htx k3 hwait
        · rw [hrw] at hwait
          simp at hwait

theorem coalesceInv_reach (cfg : EnrichConfig) (mdl t : String) (s1 s2 : ConcState)
    (hreach : ConcReach cfg mdl s1 s2) (hinv : CoalesceInv cfg mdl t s1) :
    CoalesceInv cfg mdl t s2 := by
  induction hreach with
  | refl => exact hinv
  | tail sa sb hre hst ih => exact coalesceInv_step cfg mdl t sa sb hst ih

/-- C9: in the concurrent dispatch model, starting from any state whose tasks
for text `t` are all ready, with `t` uncached, nothing in flight and no call
logged, every interleaving of scheduler steps logs at most one gateway call
for `t`'s key; and every task for `t` that finishes receives exactly the one
dispatched result, with exactly one gateway call logged — concurrent
duplicate rows coalesce onto a single LLMGateway call. -/
theorem coalescing_single_call (cfg : EnrichConfig) (mdl t : String) (s0 s : ConcState)
    (htasks : ∀ task ∈ s0.tasks, task.text = t → task.status = TaskStatus.ready)
    (hcache0 : CacheStore.get s0.cache (cacheKey t mdl) = none)
    (hinflight0 : s0.inflight = [])
    (hcalls0 : s0.calls = [])
    (hreach : ConcReach cfg mdl s0 s) :
    countKey s.calls (cacheKey t mdl) ≤ 1
    ∧ (∀ task ∈ s.tasks, task.text = t →
        ∀ r, task.status = TaskStatus.done r →
          r = missResult cfg t ∧ countKey s.calls (cacheKey t mdl) = 1) := by
  have hinv0 : CoalesceInv cfg mdl t s0 := by
    refine ⟨?_, ?_, ?_, ?_, ?_, ?_, ?_⟩
    · simp [hcalls0, countKey]
    · intro h
      simp [hcalls0, countKey] at h
    · intro h
      rcases h with hs | hs
      · rw [hinflight0] at hs
        simp [CacheStore.get] at hs
      · rw [hcache0] at hs
        simp at hs
    · intro r hr
      rw [hinflight0] at hr
      cases hr
    · intro r hr
      rw [hcache0] at hr
      cases hr
    · intro task htm htx r hdone
      rw [htasks task htm htx] at hdone
      cases hdone
    · intro task htm htx k2 hwait
      rw [htasks task htm htx] at hwait
      cases hwait
  obtain ⟨i1, i2, i3, i4, i5, i6, i7⟩ := coalesceInv_reach cfg mdl t s0 s hreach hinv0
  refine ⟨i1, ?_⟩
  intro task htm htx r hdone
  obtain ⟨hr, hc⟩ := i6 task htm htx r hdone
  exact ⟨hr, le_antisymm i1 hc⟩

/-- Initial concurrent state of the coalescing witness: two ready tasks with
identical text, empty cache, nothing in flight, no call logged. -/
def concInit : ConcState :=
  { tasks := [{ text := "dup", status := TaskStatus.ready },
              { text := "dup", status := TaskStatus.ready }],
    cache := [], inflight := [], calls := [] }

/-- State after task 0 dispatches: its key is in flight and one call is
logged. -/
def concMid1 : ConcState :=
  { tasks := [{ text := "dup", status := TaskStatus.waiting (cacheKey "dup" "m") },
              { text := "dup", status := TaskStatus.ready }],
    cache := [],
    inflight := [(cacheKey "dup" "m", missResult cfgStub "dup")],
    calls := [cacheKey "dup" "m"] }

/-- State after task 1 coalesces onto the in-flight computation. -/
def concMid2 : ConcState :=
  { tasks := [{ text := "dup", status := TaskStatus.waiting (cacheKey "dup" "m") },
              { text := "dup", status := TaskStatus.waiting (cacheKey "dup" "m") }],
    cache := [],
    inflight := [(cacheKey "dup" "m", missResult cfgStub "dup")],
    calls := [cacheKey "dup" "m"] }

/-- Final state: the completion served both tasks from the single call. -/
def concFinal : ConcState :=
  { tasks := [{ text := "dup", status := TaskStatus.done (missResult cfgStub "dup") },
              { text := "dup", status := TaskStatus.done (missResult cfgStub "dup") }],
    cache := [(cacheKey "dup" "m", missResult cfgStub "dup")],
    inflight := [],
    calls := [cacheKey "dup" "m"] }

/-- Witness for C9 at a concrete input: two concurrently dispatched tasks
with the same text end done under a schedule that dispatches once, coalesces
the second request, and completes — with exactly one logged gateway call. -/
theorem coalescing_single_call_witness :
    countKey concFinal.calls (cacheKey "dup" "m") ≤ 1
    ∧ countKey concFinal.calls (cacheKey "dup" "m") = 1 := by
  have hreach : ConcReach cfgStub "m" concInit concFinal :=
    ConcReach.tail concInit concMid2 concFinal
      (ConcReach.tail concInit concMid1 concMid2
        (ConcReach.tail concInit concInit concMid1
          (ConcReach.refl concInit)
          (ConcStep.dispatch concInit 0 "dup" rfl rfl rfl))
        (ConcStep.coalesce concMid1 1 "dup" (missResult cfgStub "dup") rfl rfl rfl))
      (ConcStep.complete concMid2 (cacheKey "dup" "m") (missResult cfgStub "dup") rfl)
  have h := coalescing_single_call cfgStub "m" "dup" concInit concFinal
    (by decide) rfl rfl rfl hreach
  exact ⟨h.1,
    (h.2 { text := "dup", status := TaskStatus.done (missResult cfgStub "dup") }
      (List.mem_cons_self _ _) rfl (missResult cfgStub "dup") rfl).2⟩
